import Mathlib

/-!
Verification of the hicrep repository (`src/hicrep/hicrep.py` and
`src/hicrep/__init__.py`) against its natural-language specification.

The numerical code operates on IEEE floating-point values; here float
values are modelled exactly as rationals extended with the three
non-finite values `nan`, `pinf` (+Inf) and `ninf` (-Inf), with the IEEE
propagation rules for the operations the code uses (subtraction,
multiplication, division, square root).  Rounding is not modelled; the
claims under verification are about the NaN/Inf bookkeeping and the
structure of the pipeline, not about rounding error.

Functions imported from `hicrep/utils.py` (`trimDiags`, `meanFilterSparse`,
`varVstran`, `resample`, `upperDiagCsr`, `getSubCoo`, `fileInfo`) are not
part of the given sources; they are modelled from the specification and
each such definition carries a doc comment starting with
`Modelled from the spec:`.
-/

/-- An idealized floating-point value: a finite rational or one of the
three non-finite IEEE values. -/
inductive FVal where
  | fin (q : ℚ)
  | nan
  | pinf
  | ninf
deriving DecidableEq, Repr

/-- IEEE-style subtraction on idealized floats. -/
def fvalSub : FVal → FVal → FVal
  | .nan, _ => .nan
  | _, .nan => .nan
  | .fin a, .fin b => .fin (a - b)
  | .fin _, .pinf => .ninf
  | .fin _, .ninf => .pinf
  | .pinf, .fin _ => .pinf
  | .ninf, .fin _ => .ninf
  | .pinf, .pinf => .nan
  | .pinf, .ninf => .pinf
  | .ninf, .pinf => .ninf
  | .ninf, .ninf => .nan

/-- IEEE-style multiplication on idealized floats (`0 * Inf = NaN`). -/
def fvalMul : FVal → FVal → FVal
  | .nan, _ => .nan
  | _, .nan => .nan
  | .fin a, .fin b => .fin (a * b)
  | .fin a, .pinf => if 0 < a then .pinf else if a < 0 then .ninf else .nan
  | .fin a, .ninf => if 0 < a then .ninf else if a < 0 then .pinf else .nan
  | .pinf, .fin b => if 0 < b then .pinf else if b < 0 then .ninf else .nan
  | .ninf, .fin b => if 0 < b then .ninf else if b < 0 then .pinf else .nan
  | .pinf, .pinf => .pinf
  | .pinf, .ninf => .ninf
  | .ninf, .pinf => .ninf
  | .ninf, .ninf => .pinf

/-- IEEE-style division on idealized floats (`x/0` is a signed infinity
for `x ≠ 0` and NaN for `x = 0`, as with `numpy` under
`errstate(divide=ignore, invalid=ignore)`). -/
def fvalDiv : FVal → FVal → FVal
  | .nan, _ => .nan
  | _, .nan => .nan
  | .fin a, .fin b =>
      if b ≠ 0 then .fin (a / b)
      else if 0 < a then .pinf
      else if a < 0 then .ninf
      else .nan
  | .fin _, .pinf => .fin 0
  | .fin _, .ninf => .fin 0
  | .pinf, .fin b => if 0 ≤ b then .pinf else .ninf
  | .ninf, .fin b => if 0 ≤ b then .ninf else .pinf
  | .pinf, .pinf => .nan
  | .pinf, .ninf => .nan
  | .ninf, .pinf => .nan
  | .ninf, .ninf => .nan

/-- Exact stand-in for the floating-point square root on the rational
carrier: exact on perfect squares, and in general zero iff the input is
zero and positive on positive inputs, which are the only properties of
the square root the verified claims depend on. -/
def ratSqrt (q : ℚ) : ℚ := ((Nat.sqrt q.num.toNat : ℚ)) / ((Nat.sqrt q.den : ℚ))

/-- IEEE-style square root on idealized floats (negative input gives NaN,
as `np.sqrt` does). -/
def fvalSqrt : FVal → FVal
  | .nan => .nan
  | .pinf => .pinf
  | .ninf => .nan
  | .fin q => if q < 0 then .nan else .fin (ratSqrt q)

/-- `np.nan_to_num(x, posinf=0.0, neginf=0.0)` on one value: NaN, +Inf and
-Inf all become 0 (hicrep.py lines 88-89). -/
def nan2zero : FVal → ℚ
  | .fin q => q
  | _ => 0

/-- A dense view of a sparse matrix: a shape together with the value at
each position (value semantics; positions absent from the sparse storage
hold 0). -/
structure CMat where
  rows : ℕ
  cols : ℕ
  a : ℕ → ℕ → ℚ

/-- Modelled from the spec: `upperDiagCsr` lives in `hicrep/utils.py`,
which is absent from the sources.  Per spec §4.4 the reshaped table has
one row per diagonal offset `k`, of length `N - k`, holding the entries
`(i, i+k)` in increasing bin order.  `diagRow m k` is that row. -/
def diagRow (m : CMat) (k : ℕ) : List ℚ :=
  (List.range (m.rows - k)).map (fun i => m.a i (i + k))

/-- The two reshaped rows at offset `k`, paired positionally. -/
def zipRows (m1 m2 : CMat) (k : ℕ) : List (ℚ × ℚ) :=
  (diagRow m1 k).zip (diagRow m2 k)

/-- `(m1D + m2D).getnnz(axis=1)` at offset `k` (hicrep.py line 73): the
number of positions whose elementwise sum is nonzero. -/
def nSamplesAt (m1 m2 : CMat) (k : ℕ) : ℕ :=
  (zipRows m1 m2 k).countP (fun p => p.1 + p.2 != 0)

/-- `m1D.sum(axis=1)` at offset `k` (hicrep.py lines 74-75). -/
def rowSumAt (m : CMat) (k : ℕ) : ℚ := (diagRow m k).sum

/-- `m1D.multiply(m2D).sum(axis=1)` at offset `k` (hicrep.py line 79). -/
def sumProdAt (m1 m2 : CMat) (k : ℕ) : ℚ :=
  ((zipRows m1 m2 k).map (fun p => p.1 * p.2)).sum

/-- `m1D.power(2).sum(axis=1)` at offset `k` (hicrep.py lines 81-82). -/
def sumSqAt (m : CMat) (k : ℕ) : ℚ := ((diagRow m k).map (fun q => q * q)).sum

/-- The covariance term of hicrep.py line 79:
`m1D.multiply(m2D).sum(axis=1) - rowSumM1D * rowSumM2D / nSamplesD`. -/
def covAt (m1 m2 : CMat) (k : ℕ) : FVal :=
  fvalSub (.fin (sumProdAt m1 m2 k))
    (fvalDiv (.fin (rowSumAt m1 k * rowSumAt m2 k)) (.fin (nSamplesAt m1 m2 k)))

/-- The first variance term of hicrep.py line 81:
`m1D.power(2).sum(axis=1) - np.square(rowSumM1D) / nSamplesD`. -/
def varTerm1At (m1 m2 : CMat) (k : ℕ) : FVal :=
  fvalSub (.fin (sumSqAt m1 k))
    (fvalDiv (.fin (rowSumAt m1 k * rowSumAt m1 k)) (.fin (nSamplesAt m1 m2 k)))

/-- The second variance term of hicrep.py line 82. -/
def varTerm2At (m1 m2 : CMat) (k : ℕ) : FVal :=
  fvalSub (.fin (sumSqAt m2 k))
    (fvalDiv (.fin (rowSumAt m2 k * rowSumAt m2 k)) (.fin (nSamplesAt m1 m2 k)))

/-- The per-diagonal Pearson correlation `rhoD` of hicrep.py lines 80-82:
`cov / np.sqrt(varTerm1 * varTerm2)`. -/
def rhoAt (m1 m2 : CMat) (k : ℕ) : FVal :=
  fvalDiv (covAt m1 m2 k)
    (fvalSqrt (fvalMul (varTerm1At m1 m2 k) (varTerm2At m1 m2 k)))

/-- Modelled from the spec: `varVstran` lives in `hicrep/utils.py`, which
is absent from the sources.  Per spec §4.5 a degenerate sample count
`n ≤ 2` yields no usable statistic (NaN); for larger `n` the published
HiCRep variance-stabilized weight `(1 + 1/n) / 12` is used, which §9
directs the implementer to source. -/
def varVstran (n : ℕ) : FVal :=
  if n ≤ 2 then .nan else .fin ((1 + 1 / (n : ℚ)) / 12)

/-- The per-diagonal weight `wsD = nSamplesD * varVstran(nSamplesD)` of
hicrep.py line 83. -/
def wsAt (m1 m2 : CMat) (k : ℕ) : FVal :=
  fvalMul (.fin ((nSamplesAt m1 m2 k : ℚ))) (varVstran (nSamplesAt m1 m2 k))

/-- `sccByDiag` (hicrep.py lines 57-91): per-diagonal correlations and
weights for offsets `1, ..., nDiags - 1`, NaN/Inf converted to zero, then
`rhoNan2Zero @ wsNan2Zero / wsNan2Zero.sum()`. -/
def sccByDiag (m1 m2 : CMat) (nDiags : ℕ) : FVal :=
  fvalDiv
    (.fin (((List.range' 1 (nDiags - 1)).map
      (fun k => nan2zero (rhoAt m1 m2 k) * nan2zero (wsAt m1 m2 k))).sum))
    (.fin (((List.range' 1 (nDiags - 1)).map
      (fun k => nan2zero (wsAt m1 m2 k))).sum))

/-- Modelled from the spec: `trimDiags` lives in `hicrep/utils.py`, which
is absent from the sources.  Per spec §4.1 it keeps exactly the entries
at diagonal distance `1 ≤ |i - j| < nDiags` (the `keepMain` flag, `False`
at the call site, would retain the main diagonal). -/
def trimDiags (m : CMat) (nDiags : ℕ) (keepMain : Bool) : CMat :=
  { rows := m.rows, cols := m.cols,
    a := fun i j =>
      let d := ((i : ℤ) - (j : ℤ)).natAbs
      if d < nDiags ∧ (keepMain ∨ 1 ≤ d) then m.a i j else 0 }

/-- Modelled from the spec: `meanFilterSparse` lives in `hicrep/utils.py`,
which is absent from the sources.  Per spec §4.2 each retained entry
`(i, j)` becomes the mean of the original entries in the window
`[i-h, i+h] × [j-h, j+h]` clipped to the matrix bounds, with the clipped
window area as denominator. -/
def meanFilterSparse (m : CMat) (h : ℕ) : CMat :=
  { rows := m.rows, cols := m.cols,
    a := fun i j =>
      if m.a i j != 0 then
        let r0 := i - h
        let r1 := min (m.rows - 1) (i + h)
        let c0 := j - h
        let c1 := min (m.cols - 1) (j + h)
        let s := ((List.range (r1 + 1 - r0)).map (fun di =>
          ((List.range (c1 + 1 - c0)).map (fun dj => m.a (r0 + di) (c0 + dj))).sum)).sum
        s / (((r1 + 1 - r0) * (c1 + 1 - c0) : ℕ) : ℚ)
      else 0 }

/-- `m.sum()` on a sparse matrix: the sum of all entries. -/
def msum (m : CMat) : ℚ :=
  ((List.range m.rows).map (fun i =>
    ((List.range m.cols).map (fun j => m.a i j)).sum)).sum

/-- `m.astype(float) / n`: divide every entry by the scalar `n`
(hicrep.py lines 202-203). -/
def mscale (m : CMat) (n : ℚ) : CMat :=
  { rows := m.rows, cols := m.cols, a := fun i j => m.a i j / n }

/-- `m.size > 0` on a sparse matrix in value semantics: some entry is
nonzero (hicrep.py lines 174 and 178). -/
def mNonEmpty (m : CMat) : Bool :=
  (List.range m.rows).any (fun i =>
    (List.range m.cols).any (fun j => m.a i j != 0))

/-- `nDiags = mS1.shape[0] if dMax < 0 else min(dMax, mS1.shape[0])`
(hicrep.py line 183). -/
def nDiagsOf (dMax : ℤ) (n : ℕ) : ℕ :=
  if dMax < 0 then n else min dMax.toNat n

/-- The distinct failure modes raised by `hicrepSCC`, one per `assert`
message in hicrep.py. -/
inductive HErr where
  | binSizeMismatch
  | nbinsMismatch
  | nchromsMismatch
  | chromNamesMismatch
  | binTablesMismatch
  | dMaxTooSmall
  | duplicateChrNames
  | emptyMatrix1 (c : String)
  | notSquare1 (c : String)
  | emptyMatrix2 (c : String)
  | notSquare2 (c : String)
  | shapeMismatch (c : String)
deriving DecidableEq, Repr

instance {ε α : Type} [DecidableEq ε] [DecidableEq α] : DecidableEq (Except ε α) := fun x y =>
  match x, y with
  | .error a, .error b =>
      if h : a = b then .isTrue (by rw [h])
      else .isFalse (by intro hc; injection hc; contradiction)
  | .ok a, .ok b =>
      if h : a = b then .isTrue (by rw [h])
      else .isFalse (by intro hc; injection hc; contradiction)
  | .error _, .ok _ => .isFalse (by intro hc; exact Except.noConfusion hc)
  | .ok _, .error _ => .isFalse (by intro hc; exact Except.noConfusion hc)

/-- The body of the per-chromosome loop of `hicrepSCC` (hicrep.py lines
171-208): validate the two submatrices, trim the diagonal band, either
downsample the larger-total matrix or normalize each by its file-wide
total, smooth when the half-window is positive, and score with
`sccByDiag`.  The `resample` collaborator (`rs`) from `hicrep/utils.py`
is a parameter, since its random draw is external to the sources. -/
def perChromScore (rs : CMat → ℚ → CMat) (n1 n2 : ℚ) (hWin : ℤ) (dMax : ℤ)
    (bDownSample : Bool) (c : String) (mS1 mS2 : CMat) : Except HErr FVal :=
  if ¬ mNonEmpty mS1 then .error (.emptyMatrix1 c)
  else if mS1.rows ≠ mS1.cols then .error (.notSquare1 c)
  else if ¬ mNonEmpty mS2 then .error (.emptyMatrix2 c)
  else if mS2.rows ≠ mS2.cols then .error (.notSquare2 c)
  else if ¬ (mS1.rows = mS2.rows ∧ mS1.cols = mS2.cols) then .error (.shapeMismatch c)
  else
    let nDiags := nDiagsOf dMax mS1.rows
    let t1 := trimDiags mS1 nDiags false
    let t2 := trimDiags mS2 nDiags false
    let p :=
      if bDownSample then
        if msum t1 > msum t2 then (rs t1 (msum t2), t2)
        else if msum t2 > msum t1 then (t1, rs t2 (msum t1))
        else (t1, t2)
      else (mscale t1 n1, mscale t2 n2)
    let q := if 0 < hWin then (meanFilterSparse p.1 hWin.toNat, meanFilterSparse p.2 hWin.toNat) else p
    .ok (sccByDiag q.1 q.2 nDiags)

/-- Band-extraction stage of the per-chromosome pipeline: trim both
matrices to the diagonals in `[1, nDiags)`. -/
def bandStage (nDiags : ℕ) (p : CMat × CMat) : CMat × CMat :=
  (trimDiags p.1 nDiags false, trimDiags p.2 nDiags false)

/-- Count-adjustment stage: when downsampling, resample only the matrix
with the larger total down to the smaller total (neither when the totals
are equal); otherwise divide each matrix by its own file-wide total. -/
def countStage (rs : CMat → ℚ → CMat) (n1 n2 : ℚ) (bDownSample : Bool)
    (p : CMat × CMat) : CMat × CMat :=
  if bDownSample then
    if msum p.1 > msum p.2 then (rs p.1 (msum p.2), p.2)
    else if msum p.2 > msum p.1 then (p.1, rs p.2 (msum p.1))
    else p
  else (mscale p.1 n1, mscale p.2 n2)

/-- Smoothing stage: mean-filter both matrices exactly when the
half-window is positive. -/
def smoothStage (hWin : ℤ) (p : CMat × CMat) : CMat × CMat :=
  if 0 < hWin then (meanFilterSparse p.1 hWin.toNat, meanFilterSparse p.2 hWin.toNat)
  else p

/-- The capability surface of one `hictkpy.File` input, as used by
`hicrepSCC`: bin size (possibly unavailable), the bin table, the ordered
chromosome dictionary (name, length), the file-wide total contact count
(`fileInfo(f, 'sum')`, modelled as a field since `fileInfo` lives in the
absent `hicrep/utils.py`), and the per-chromosome submatrix accessor
(`getSubCoo`, likewise modelled as a field). -/
structure HFile where
  bin_size : Option ℕ
  bins : List (ℕ × ℕ)
  chroms : List (String × ℕ)
  total : ℚ
  sub : String → CMat

/-- Python `dict` equality on the chromosome dictionaries: same number of
keys and every key of the first maps to the same value in the second
(order-insensitive, as `f1.chromosomes() == f2.chromosomes()` is). -/
def pyDictEq (l1 l2 : List (String × ℕ)) : Bool :=
  l1.length == l2.length && l1.all (fun p => l2.lookup p.1 == some p.2)

/-- `dict.fromkeys(chrNames)` key order: first occurrences, in input
order (hicrep.py line 154). -/
def pyFromKeys : List String → List String
  | [] => []
  | a :: as => a :: (pyFromKeys as).filter (fun s => s != a)

/-- Popping the pseudo-chromosomes `"ALL"` and `"All"` from the selected
name dictionary (hicrep.py lines 156-159). -/
def popALLAll (l : List String) : List String :=
  (l.filter (fun s => s != "ALL")).filter (fun s => s != "All")

/-- The keys of `chrNamesDict` before popping (hicrep.py lines 151-154):
the first file's chromosome order when no inclusion list is given,
otherwise `dict.fromkeys` of the inclusion list. -/
def baseChrKeys (f1 : HFile) (chrNames : Option (List String)) : List String :=
  match chrNames with
  | none => f1.chroms.map Prod.fst
  | some l => pyFromKeys l

/-- The chromosome names `hicrepSCC` iterates over, in order (hicrep.py
lines 151-169): selected keys, minus `"ALL"`/`"All"`, minus the excluded
names. -/
def selectedChroms (f1 : HFile) (chrNames : Option (List String))
    (excludeChr : Option (List String)) : List String :=
  (popALLAll (baseChrKeys f1 chrNames)).filter
    (fun c => !((excludeChr.getD []).contains c))

/-- Insertion of one element into a sorted list, for the median model. -/
def insertSorted (x : ℕ) : List ℕ → List ℕ
  | [] => [x]
  | y :: ys => if x ≤ y then x :: y :: ys else y :: insertSorted x ys

/-- Insertion sort, for the median model. -/
def sortNat (l : List ℕ) : List ℕ := l.foldr insertSorted []

/-- `int(np.median(l))` on a list of naturals: middle element of the
sorted list for odd length, truncated mean of the two middle elements
for even length (hicrep.py line 136). -/
def npMedianInt (l : List ℕ) : ℕ :=
  let s := sortNat l
  if s.length % 2 = 1 then s.getD (s.length / 2) 0
  else (s.getD (s.length / 2 - 1) 0 + s.getD (s.length / 2) 0) / 2

/-- The bin size `hicrepSCC` works with (hicrep.py lines 125-140): the
reported bin size, or the median bin width of the first file when the
reported bin size is unavailable. -/
def resolvedBinSize (f : HFile) : ℕ :=
  match f.bin_size with
  | some b => b
  | none => npMedianInt (f.bins.map (fun p => p.2 - p.1))

/-- The exclusive diagonal cutoff `dMax` (hicrep.py lines 141-145): the
first file's bin count when `dBPMax` is the sentinel `-1`, else
`dBPMax // binSize + 1` (Python floor division). -/
def dMaxOf (f1 : HFile) (binSize : ℕ) (dBPMax : ℤ) : ℤ :=
  if dBPMax = -1 then (f1.bins.length : ℤ) else Int.fdiv dBPMax (binSize : ℤ) + 1

/-- The per-chromosome loop (hicrep.py lines 170-208): compute each score
in order, aborting at the first per-chromosome validation failure, as the
Python `assert`s do. -/
def exMapM {α β ε : Type} (f : α → Except ε β) : List α → Except ε (List β)
  | [] => .ok []
  | a :: as =>
    match f a with
    | .error e => .error e
    | .ok b =>
      match exMapM f as with
      | .error e => .error e
      | .ok bs => .ok (b :: bs)

/-- `hicrepSCC` (hicrep.py lines 94-209).  The `rs` parameter is the
`resample` collaborator from the absent `hicrep/utils.py` (its random
draw is external to the sources).  Validation failures are the Python
`assert`s, in source order; the result is one SCC score per selected
chromosome, in selection order. -/
def hicrepSCC (rs : CMat → ℚ → CMat) (f1 f2 : HFile) (hWin : ℤ) (dBPMax : ℤ)
    (bDownSample : Bool) (chrNames : Option (List String))
    (excludeChr : Option (List String)) : Except HErr (List FVal) :=
  if f1.bin_size ≠ f2.bin_size then .error .binSizeMismatch
  else if f1.bins.length ≠ f2.bins.length then .error .nbinsMismatch
  else if f1.chroms.length ≠ f2.chroms.length then .error .nchromsMismatch
  else if ¬ pyDictEq f1.chroms f2.chroms then .error .chromNamesMismatch
  else if f1.bin_size = none ∧ f1.bins ≠ f2.bins then .error .binTablesMismatch
  else
    let binSize := resolvedBinSize f1
    let dMax := dMaxOf f1 binSize dBPMax
    if dMax ≤ 1 then .error .dMaxTooSmall
    else
      let n1 := f1.total
      let n2 := f2.total
      let sel := popALLAll (baseChrKeys f1 chrNames)
      if chrNames.isSome ∧ sel.length ≠ (chrNames.getD []).length then
        .error .duplicateChrNames
      else
        exMapM
          (fun c => perChromScore rs n1 n2 hWin dMax bDownSample c (f1.sub c) (f2.sub c))
          (sel.filter (fun c => !((excludeChr.getD []).contains c)))

/-- The per-chromosome body with the smoothing stage removed entirely
(stated from the spec's words for the refinement claim about `h = 0`). -/
def perChromScoreNoSmooth (rs : CMat → ℚ → CMat) (n1 n2 : ℚ) (dMax : ℤ)
    (bDownSample : Bool) (c : String) (mS1 mS2 : CMat) : Except HErr FVal :=
  if ¬ mNonEmpty mS1 then .error (.emptyMatrix1 c)
  else if mS1.rows ≠ mS1.cols then .error (.notSquare1 c)
  else if ¬ mNonEmpty mS2 then .error (.emptyMatrix2 c)
  else if mS2.rows ≠ mS2.cols then .error (.notSquare2 c)
  else if ¬ (mS1.rows = mS2.rows ∧ mS1.cols = mS2.cols) then .error (.shapeMismatch c)
  else
    let nDiags := nDiagsOf dMax mS1.rows
    let t1 := trimDiags mS1 nDiags false
    let t2 := trimDiags mS2 nDiags false
    let p :=
      if bDownSample then
        if msum t1 > msum t2 then (rs t1 (msum t2), t2)
        else if msum t2 > msum t1 then (t1, rs t2 (msum t1))
        else (t1, t2)
      else (mscale t1 n1, mscale t2 n2)
    .ok (sccByDiag p.1 p.2 nDiags)

/-- The whole pipeline with the smoothing stage removed entirely (stated
from the spec's words for the refinement claim about `h = 0`). -/
def hicrepSCCNoSmooth (rs : CMat → ℚ → CMat) (f1 f2 : HFile) (dBPMax : ℤ)
    (bDownSample : Bool) (chrNames : Option (List String))
    (excludeChr : Option (List String)) : Except HErr (List FVal) :=
  if f1.bin_size ≠ f2.bin_size then .error .binSizeMismatch
  else if f1.bins.length ≠ f2.bins.length then .error .nbinsMismatch
  else if f1.chroms.length ≠ f2.chroms.length then .error .nchromsMismatch
  else if ¬ pyDictEq f1.chroms f2.chroms then .error .chromNamesMismatch
  else if f1.bin_size = none ∧ f1.bins ≠ f2.bins then .error .binTablesMismatch
  else
    let binSize := resolvedBinSize f1
    let dMax := dMaxOf f1 binSize dBPMax
    if dMax ≤ 1 then .error .dMaxTooSmall
    else
      let n1 := f1.total
      let n2 := f2.total
      let sel := popALLAll (baseChrKeys f1 chrNames)
      if chrNames.isSome ∧ sel.length ≠ (chrNames.getD []).length then
        .error .duplicateChrNames
      else
        exMapM
          (fun c => perChromScoreNoSmooth rs n1 n2 dMax bDownSample c (f1.sub c) (f2.sub c))
          (sel.filter (fun c => !((excludeChr.getD []).contains c)))

/-- The failure mode raised by the CLI entry point `main`
(src/hicrep/__init__.py line 67). -/
inductive MainErr where
  | bothChrNamesAndExcludeChr
deriving DecidableEq, Repr

/-- The warning text emitted by `main` on duplicate `--excludeChr` names
(src/hicrep/__init__.py lines 96-98). -/
def dupExcludeChrWarning : String :=
  "Duplicate excludeChr found. Please remove them in --excludeChr"

/-- The argparse default of `--excludeChr`
(src/hicrep/__init__.py line 58). -/
def defaultExcludeChr : List String := ["chrM", "M"]

/-- The validation and dispatch logic of the CLI entry point `main`
(src/hicrep/__init__.py lines 67-105): reject a non-default exclusion
list combined with an inclusion list, warn (only) on duplicate exclusion
names, then call `hicrepSCC` with the inclusion list (or `None` when
empty) and the exclusion set (or `None` when empty).  The result pairs
the emitted warnings with the `hicrepSCC` outcome. -/
def mainModel (rs : CMat → ℚ → CMat) (f1 f2 : HFile) (hWin dBPMax : ℤ)
    (bDownSample : Bool) (chrNames excludeChr : List String) :
    Except MainErr (List String × Except HErr (List FVal)) :=
  if excludeChr ≠ defaultExcludeChr ∧ 0 < chrNames.length then
    .error .bothChrNamesAndExcludeChr
  else
    let warns :=
      if (pyFromKeys excludeChr).length ≠ excludeChr.length then [dupExcludeChrWarning]
      else []
    let excl := pyFromKeys excludeChr
    .ok (warns,
      hicrepSCC rs f1 f2 hWin dBPMax bDownSample
        (if 0 < chrNames.length then some chrNames else none)
        (if 0 < excl.length then some excl else none))

/-- Identity stand-in for the `resample` collaborator, used to
instantiate theorems at concrete inputs. -/
def rsId : CMat → ℚ → CMat := fun m _ => m

/-- A concrete 4x4 matrix with ones on the first upper diagonal. -/
def mBand1 : CMat :=
  { rows := 4, cols := 4,
    a := fun i j => if (i, j) = (0, 1) ∨ (i, j) = (1, 2) ∨ (i, j) = (2, 3) then 1 else 0 }

/-- A concrete 4x4 all-zero matrix. -/
def mZero4 : CMat := { rows := 4, cols := 4, a := fun _ _ => 0 }

/-- A concrete well-formed input file with a single chromosome. -/
def fOK : HFile :=
  { bin_size := some 10,
    bins := [(0, 10), (10, 20), (20, 30), (30, 40)],
    chroms := [("chr1", 40)],
    total := 4,
    sub := fun _ => mBand1 }

/-- `fOK` with a different bin size. -/
def fDiffBinSize : HFile := { fOK with bin_size := some 20 }

/-- `fOK` with a different number of bins (same bin size). -/
def fDiffNbins : HFile := { fOK with bins := [(0, 10), (10, 20), (20, 30)] }

/-- `fOK` with a different number of chromosomes. -/
def fDiffNchroms : HFile := { fOK with chroms := [("chr1", 40), ("chr2", 40)] }

/-- `fOK` with the same number of chromosomes but a different name. -/
def fDiffChromName : HFile := { fOK with chroms := [("chr2", 40)] }

/-- A file whose native chromosome list carries the pseudo-chromosome
`"ALL"` ahead of a real chromosome. -/
def fWithALL : HFile := { fOK with chroms := [("ALL", 40), ("chr1", 40)] }

/-- The scenario predicate of the zero-matrix claim: every entry of `m`
on every diagonal offset in `[1, nDiags)` is zero. -/
def bandZero (m : CMat) (nD : ℕ) : Prop :=
  ∀ k ∈ Finset.Ico 1 nD, ∀ i ∈ Finset.range (m.rows - k), m.a i (i + k) = 0

instance (m : CMat) (nD : ℕ) : Decidable (bandZero m nD) := by
  unfold bandZero
  infer_instance

theorem sum_map_range (g : ℕ → ℚ) (n : ℕ) :
    ((List.range n).map g).sum = ∑ i in Finset.range n, g i := by
  induction n with
  | zero => simp
  | succ n ih =>
      rw [List.range_succ, List.map_append, List.sum_append, Finset.sum_range_succ, ih]
      simp

theorem sum_map_range' (g : ℕ → ℚ) (n : ℕ) :
    ((List.range' 1 n).map g).sum = ∑ k in Finset.Ico 1 (n + 1), g k := by
  rw [Finset.sum_Ico_eq_sum_range]
  simp only [Nat.add_sub_cancel]
  rw [List.range'_eq_map_range, List.map_map, sum_map_range]
  simp [Function.comp, Nat.add_comm]

theorem countP_congr_mem {α : Type} {l : List α} {p q : α → Bool}
    (h : ∀ a ∈ l, p a = q a) : l.countP p = l.countP q := by
  induction l with
  | nil => rfl
  | cons a as ih =>
      rw [List.countP_cons, List.countP_cons, h a (by simp), ih (fun b hb => h b (by simp [hb]))]

theorem union_support_bool (x y : ℚ) (hx : 0 ≤ x) (hy : 0 ≤ y) :
    ((x + y != 0)) = (x != 0 || y != 0) := by
  by_cases hx0 : x = 0
  · subst hx0
    rw [zero_add, bne_self_eq_false, Bool.false_or]
  · have hxp : 0 < x := lt_of_le_of_ne hx (Ne.symm hx0)
    have hs : x + y ≠ 0 := by positivity
    rw [bne_iff_ne.mpr hs, bne_iff_ne.mpr hx0, Bool.true_or]

theorem mem_diagRow {m : CMat} {k : ℕ} {x : ℚ} (hx : x ∈ diagRow m k) :
    ∃ i, i < m.rows - k ∧ x = m.a i (i + k) := by
  rw [diagRow] at hx
  obtain ⟨i, hi, hix⟩ := List.mem_map.mp hx
  exact ⟨i, List.mem_range.mp hi, hix.symm⟩

theorem ratSqrt_zero : ratSqrt 0 = 0 := by
  rw [ratSqrt]
  norm_num

theorem fvalSqrt_zero : fvalSqrt (.fin 0) = .fin 0 := by
  rw [fvalSqrt]
  simp [ratSqrt_zero]

theorem fvalDiv_zero_zero : fvalDiv (.fin 0) (.fin 0) = .nan := by
  rw [fvalDiv]
  norm_num

theorem fvalDiv_nan (x : FVal) : fvalDiv .nan x = .nan := by
  cases x <;> rfl

theorem fvalSub_fin_fin (a b : ℚ) : fvalSub (.fin a) (.fin b) = .fin (a - b) := rfl

theorem fvalSub_fin_nan (a : ℚ) : fvalSub (.fin a) .nan = .nan := rfl

theorem fvalMul_fin_fin (a b : ℚ) : fvalMul (.fin a) (.fin b) = .fin (a * b) := rfl

theorem fvalDiv_fin_fin (a b : ℚ) :
    fvalDiv (.fin a) (.fin b) =
      if b ≠ 0 then .fin (a / b)
      else if 0 < a then .pinf
      else if a < 0 then .ninf
      else .nan := rfl

theorem rhoAt_eq_nan (m1 m2 : CMat) (k : ℕ)
    (hp : sumProdAt m1 m2 k = 0)
    (hrs : rowSumAt m1 k * rowSumAt m2 k = 0)
    (hvv : (nSamplesAt m1 m2 k : ℚ) ≠ 0 →
      fvalMul (varTerm1At m1 m2 k) (varTerm2At m1 m2 k) = .fin 0) :
    rhoAt m1 m2 k = .nan := by
  by_cases hn : (nSamplesAt m1 m2 k : ℚ) = 0
  · have hcov : covAt m1 m2 k = .nan := by
      rw [covAt, hp, hrs, hn, fvalDiv_zero_zero]
      rfl
    rw [rhoAt, hcov, fvalDiv_nan]
  · have hcov : covAt m1 m2 k = .fin 0 := by
      rw [covAt, hp, hrs, fvalDiv_fin_fin, if_pos hn, zero_div, fvalSub_fin_fin, sub_zero]
    rw [rhoAt, hcov, hvv hn, fvalSqrt_zero, fvalDiv_zero_zero]

theorem varTerm2At_eq_fin_zero (m1 m2 : CMat) (k : ℕ)
    (hs : rowSumAt m2 k = 0) (hq : sumSqAt m2 k = 0)
    (hn : (nSamplesAt m1 m2 k : ℚ) ≠ 0) :
    fvalMul (varTerm1At m1 m2 k) (varTerm2At m1 m2 k) = .fin 0 := by
  have h2 : varTerm2At m1 m2 k = .fin 0 := by
    rw [varTerm2At, hs, hq, mul_zero, fvalDiv_fin_fin, if_pos hn, zero_div,
      fvalSub_fin_fin, sub_zero]
  have h1 : varTerm1At m1 m2 k =
      .fin (sumSqAt m1 k - rowSumAt m1 k * rowSumAt m1 k / (nSamplesAt m1 m2 k : ℚ)) := by
    rw [varTerm1At, fvalDiv_fin_fin, if_pos hn, fvalSub_fin_fin]
  rw [h1, h2, fvalMul_fin_fin, mul_zero]

theorem varTerm1At_eq_fin_zero (m1 m2 : CMat) (k : ℕ)
    (hs : rowSumAt m1 k = 0) (hq : sumSqAt m1 k = 0)
    (hn : (nSamplesAt m1 m2 k : ℚ) ≠ 0) :
    fvalMul (varTerm1At m1 m2 k) (varTerm2At m1 m2 k) = .fin 0 := by
  have h1 : varTerm1At m1 m2 k = .fin 0 := by
    rw [varTerm1At, hs, hq, mul_zero, fvalDiv_fin_fin, if_pos hn, zero_div,
      fvalSub_fin_fin, sub_zero]
  have h2 : varTerm2At m1 m2 k =
      .fin (sumSqAt m2 k - rowSumAt m2 k * rowSumAt m2 k / (nSamplesAt m1 m2 k : ℚ)) := by
    rw [varTerm2At, fvalDiv_fin_fin, if_pos hn, fvalSub_fin_fin]
  rw [h1, h2, fvalMul_fin_fin, zero_mul]

theorem rowSumAt_eq_zero {m : CMat} {k : ℕ} (h : ∀ x ∈ diagRow m k, x = 0) :
    rowSumAt m k = 0 := List.sum_eq_zero h

theorem sumSqAt_eq_zero {m : CMat} {k : ℕ} (h : ∀ x ∈ diagRow m k, x = 0) :
    sumSqAt m k = 0 := by
  apply List.sum_eq_zero
  intro x hx
  obtain ⟨q, hq, rfl⟩ := List.mem_map.mp hx
  rw [h q hq, mul_zero]

theorem sumProdAt_eq_zero_left {m1 m2 : CMat} {k : ℕ}
    (h : ∀ x ∈ diagRow m1 k, x = 0) : sumProdAt m1 m2 k = 0 := by
  apply List.sum_eq_zero
  intro x hx
  obtain ⟨p, hp, rfl⟩ := List.mem_map.mp hx
  rw [h p.1 (List.of_mem_zip hp).1, zero_mul]

theorem sumProdAt_eq_zero_right {m1 m2 : CMat} {k : ℕ}
    (h : ∀ x ∈ diagRow m2 k, x = 0) : sumProdAt m1 m2 k = 0 := by
  apply List.sum_eq_zero
  intro x hx
  obtain ⟨p, hp, rfl⟩ := List.mem_map.mp hx
  rw [h p.2 (List.of_mem_zip hp).2, mul_zero]

theorem diagRow_all_zero {m : CMat} {nD k : ℕ} (h : bandZero m nD)
    (hk : k ∈ Finset.Ico 1 nD) : ∀ x ∈ diagRow m k, x = 0 := by
  intro x hx
  obtain ⟨i, hi, hix⟩ := mem_diagRow hx
  rw [hix]
  exact h k hk i (Finset.mem_range.mpr hi)

/-- Claim C1: for every pair of banded matrices and every `nDiags`,
`sccByDiag` returns the weighted average `Sum_k(rho_k * w_k) / Sum_k(w_k)`
over diagonal offsets `k` in `[1, nDiags)`, where any per-diagonal
correlation `rho_k` or weight `w_k` that is NaN, +Inf or -Inf is replaced
by 0 in both the numerator and the denominator before aggregating. -/
theorem sccByDiag_weighted_nan_absorbed_average (m1 m2 : CMat) (nD : ℕ) :
    sccByDiag m1 m2 nD =
      fvalDiv
        (.fin (∑ k in Finset.Ico 1 nD, nan2zero (rhoAt m1 m2 k) * nan2zero (wsAt m1 m2 k)))
        (.fin (∑ k in Finset.Ico 1 nD, nan2zero (wsAt m1 m2 k))) := by
  rcases nD with _ | n
  · simp [sccByDiag]
  · rw [sccByDiag]
    simp only [Nat.succ_sub_one]
    rw [sum_map_range', sum_map_range']

/-- Claim C2: for every diagonal offset `k`, the per-diagonal sample
count used by `sccByDiag` equals the number of positions at which the
reshaped row of matrix 1 or the reshaped row of matrix 2 is nonzero,
given the contact-matrix invariant that entries are non-negative. -/
theorem nSamplesAt_counts_union_support (m1 m2 : CMat) (k : ℕ)
    (h1 : ∀ i ∈ Finset.range m1.rows, ∀ j ∈ Finset.range m1.rows, 0 ≤ m1.a i j)
    (h2 : ∀ i ∈ Finset.range m2.rows, ∀ j ∈ Finset.range m2.rows, 0 ≤ m2.a i j) :
    nSamplesAt m1 m2 k =
      (zipRows m1 m2 k).countP (fun p => p.1 != 0 || p.2 != 0) := by
  rw [nSamplesAt]
  refine countP_congr_mem (fun p hp => ?_)
  obtain ⟨hp1, hp2⟩ := List.of_mem_zip hp
  obtain ⟨i, hi, hix⟩ := mem_diagRow hp1
  obtain ⟨i2, hi2, hix2⟩ := mem_diagRow hp2
  have hx : 0 ≤ p.1 := by
    rw [hix]
    exact h1 i (Finset.mem_range.mpr (by omega)) (i + k) (Finset.mem_range.mpr (by omega))
  have hy : 0 ≤ p.2 := by
    rw [hix2]
    exact h2 i2 (Finset.mem_range.mpr (by omega)) (i2 + k) (Finset.mem_range.mpr (by omega))
  exact union_support_bool p.1 p.2 hx hy

/-- Witness for claim C2 at a concrete non-negative matrix pair. -/
theorem nSamplesAt_counts_union_support_witness :
    (∀ i ∈ Finset.range mBand1.rows, ∀ j ∈ Finset.range mBand1.rows, 0 ≤ mBand1.a i j) ∧
    nSamplesAt mBand1 mBand1 1 =
      (zipRows mBand1 mBand1 1).countP (fun p => p.1 != 0 || p.2 != 0) :=
  ⟨by with_unfolding_all decide,
   nSamplesAt_counts_union_support mBand1 mBand1 1 (by with_unfolding_all decide)
     (by with_unfolding_all decide)⟩

/-- Counterexample to claim C3 as stated: with the second input entirely
zero on the band `[1, 2)` and the first input holding three nonzero
entries there, the per-diagonal sample count is 3, the weight is finite
and positive, and `sccByDiag` returns the numeric score 0 rather than
the NaN sentinel. -/
theorem sccByDiag_zero_input_not_nan_counterexample :
    bandZero mZero4 2 ∧ ¬ bandZero mBand1 2 ∧ sccByDiag mBand1 mZero4 2 ≠ FVal.nan :=
  ⟨by with_unfolding_all decide, by with_unfolding_all decide, by with_unfolding_all decide⟩

/-- Claim C3 (amended): if either input matrix is entirely zero on every
diagonal in `[1, nDiags)`, then every per-diagonal correlation is
undefined and absorbed to 0 and `sccByDiag` returns without error; the
result is the NaN sentinel exactly when the absorbed weights sum to 0,
and otherwise the numeric score 0. -/
theorem sccByDiag_zero_input_absorbed (m1 m2 : CMat) (nD : ℕ)
    (hz : bandZero m1 nD ∨ bandZero m2 nD) :
    (∀ k ∈ Finset.Ico 1 nD, nan2zero (rhoAt m1 m2 k) = 0) ∧
    sccByDiag m1 m2 nD =
      (if ((List.range' 1 (nD - 1)).map (fun k => nan2zero (wsAt m1 m2 k))).sum = 0
       then FVal.nan else FVal.fin 0) := by
  have hrho : ∀ k ∈ Finset.Ico 1 nD, rhoAt m1 m2 k = .nan := by
    intro k hk
    cases hz with
    | inl h =>
        have hall := diagRow_all_zero h hk
        exact rhoAt_eq_nan m1 m2 k (sumProdAt_eq_zero_left hall)
          (by rw [rowSumAt_eq_zero hall, zero_mul])
          (varTerm1At_eq_fin_zero m1 m2 k (rowSumAt_eq_zero hall) (sumSqAt_eq_zero hall))
    | inr h =>
        have hall := diagRow_all_zero h hk
        exact rhoAt_eq_nan m1 m2 k (sumProdAt_eq_zero_right hall)
          (by rw [rowSumAt_eq_zero hall, mul_zero])
          (varTerm2At_eq_fin_zero m1 m2 k (rowSumAt_eq_zero hall) (sumSqAt_eq_zero hall))
  refine ⟨fun k hk => by rw [hrho k hk]; rfl, ?_⟩
  rw [sccByDiag]
  have hnum : ((List.range' 1 (nD - 1)).map
      (fun k => nan2zero (rhoAt m1 m2 k) * nan2zero (wsAt m1 m2 k))).sum = 0 := by
    apply List.sum_eq_zero
    intro x hx
    obtain ⟨k, hk, rfl⟩ := List.mem_map.mp hx
    have hkI : k ∈ Finset.Ico 1 nD := by
      have hm := List.mem_range'_1.mp hk
      exact Finset.mem_Ico.mpr (by omega)
    rw [hrho k hkI]
    show (0 : ℚ) * _ = 0
    rw [zero_mul]
  rw [hnum]
  by_cases hS : ((List.range' 1 (nD - 1)).map (fun k => nan2zero (wsAt m1 m2 k))).sum = 0
  · rw [if_pos hS, hS, fvalDiv_zero_zero]
  · rw [if_neg hS, fvalDiv_fin_fin, if_pos hS, zero_div]

/-- Witness for the amended claim C3 at a concrete input with a
positive surviving weight. -/
theorem sccByDiag_zero_input_absorbed_witness :
    bandZero mZero4 2 ∧ sccByDiag mBand1 mZero4 2 = FVal.fin 0 := by
  have h := sccByDiag_zero_input_absorbed mBand1 mZero4 2 (Or.inr (by with_unfolding_all decide))
  refine ⟨by with_unfolding_all decide, ?_⟩
  rw [h.2, if_neg (by with_unfolding_all decide)]

/-- Claim C4: `hicrepSCC` fails fast, with a distinct error per
violation and before any per-chromosome matrix work (the conclusion
holds for every submatrix accessor), whenever the two input sources
disagree on bin size, on bin count, on chromosome count, or on
chromosome names. -/
theorem hicrepSCC_failfast_source_compat (rs : CMat → ℚ → CMat) (f1 f2 : HFile)
    (hW dBP : ℤ) (bDS : Bool) (cn ex : Option (List String)) :
    (f1.bin_size ≠ f2.bin_size →
      hicrepSCC rs f1 f2 hW dBP bDS cn ex = .error .binSizeMismatch) ∧
    (f1.bin_size = f2.bin_size → f1.bins.length ≠ f2.bins.length →
      hicrepSCC rs f1 f2 hW dBP bDS cn ex = .error .nbinsMismatch) ∧
    (f1.bin_size = f2.bin_size → f1.bins.length = f2.bins.length →
      f1.chroms.length ≠ f2.chroms.length →
      hicrepSCC rs f1 f2 hW dBP bDS cn ex = .error .nchromsMismatch) ∧
    (f1.bin_size = f2.bin_size → f1.bins.length = f2.bins.length →
      f1.chroms.length = f2.chroms.length → ¬ pyDictEq f1.chroms f2.chroms →
      hicrepSCC rs f1 f2 hW dBP bDS cn ex = .error .chromNamesMismatch) := by
  refine ⟨fun h1 => ?_, fun h1 h2 => ?_, fun h1 h2 h3 => ?_, fun h1 h2 h3 h4 => ?_⟩ <;>
    simp [hicrepSCC, *]

/-- Witness for claim C4: the four distinct errors at four concrete
file pairs. -/
theorem hicrepSCC_failfast_source_compat_witness :
    hicrepSCC rsId fOK fDiffBinSize 0 (-1) false none none = .error .binSizeMismatch ∧
    hicrepSCC rsId fOK fDiffNbins 0 (-1) false none none = .error .nbinsMismatch ∧
    hicrepSCC rsId fOK fDiffNchroms 0 (-1) false none none = .error .nchromsMismatch ∧
    hicrepSCC rsId fOK fDiffChromName 0 (-1) false none none = .error .chromNamesMismatch :=
  ⟨(hicrepSCC_failfast_source_compat rsId fOK fDiffBinSize 0 (-1) false none none).1
      (by decide),
   (hicrepSCC_failfast_source_compat rsId fOK fDiffNbins 0 (-1) false none none).2.1
      (by decide) (by decide),
   (hicrepSCC_failfast_source_compat rsId fOK fDiffNchroms 0 (-1) false none none).2.2.1
      rfl rfl (by decide),
   (hicrepSCC_failfast_source_compat rsId fOK fDiffChromName 0 (-1) false none none).2.2.2
      rfl rfl rfl (by decide)⟩

/-- Claim C5: the diagonal cutoff is `dBPMax / binSize + 1` (Python floor
division) when `dBPMax` is a finite cutoff (`dBPMax ≠ -1`) and the first
source's total bin count when `dBPMax = -1`; `hicrepSCC` fails with the
cutoff error when this cutoff is not greater than 1; and for each
chromosome the effective `nDiags` is the minimum of this cutoff and the
chromosome's bin count. -/
theorem hicrepSCC_diagonal_cutoff :
    (∀ (f1 : HFile) (bs : ℕ), dMaxOf f1 bs (-1) = (f1.bins.length : ℤ)) ∧
    (∀ (f1 : HFile) (bs : ℕ) (d : ℤ), d ≠ -1 →
      dMaxOf f1 bs d = Int.fdiv d (bs : ℤ) + 1) ∧
    (∀ (rs : CMat → ℚ → CMat) (f1 f2 : HFile) (hW dBP : ℤ) (bDS : Bool)
      (cn ex : Option (List String)),
      f1.bin_size = f2.bin_size → f1.bins.length = f2.bins.length →
      f1.chroms.length = f2.chroms.length → pyDictEq f1.chroms f2.chroms →
      (f1.bin_size = none → f1.bins = f2.bins) →
      dMaxOf f1 (resolvedBinSize f1) dBP ≤ 1 →
      hicrepSCC rs f1 f2 hW dBP bDS cn ex = .error .dMaxTooSmall) ∧
    (∀ (dM : ℤ) (n : ℕ), 1 < dM → nDiagsOf dM n = min dM.toNat n) := by
  refine ⟨fun f1 bs => by simp [dMaxOf], fun f1 bs d hd => by simp [dMaxOf, hd], ?_, ?_⟩
  · intro rs f1 f2 hW dBP bDS cn ex h1 h2 h3 h4 h5 h6
    have h5n : ¬ (f1.bin_size = none ∧ f1.bins ≠ f2.bins) := fun hc => hc.2 (h5 hc.1)
    simp [hicrepSCC, h1, h2, h3, h4, h5n, h6]
    intro hn
    exact h5 (by rw [h1, hn])
  · intro dM n h
    rw [nDiagsOf, if_neg (by omega)]

/-- Witness for claim C5 at concrete cutoffs: the `-1` default, a finite
cutoff, a failing cutoff, and the per-chromosome minimum. -/
theorem hicrepSCC_diagonal_cutoff_witness :
    dMaxOf fOK 10 (-1) = 4 ∧ dMaxOf fOK 10 100 = 11 ∧
    hicrepSCC rsId fOK fOK 0 5 false none none = .error .dMaxTooSmall ∧
    nDiagsOf 4 3 = 3 :=
  ⟨(hicrepSCC_diagonal_cutoff.1 fOK 10).trans (by decide),
   (hicrepSCC_diagonal_cutoff.2.1 fOK 10 100 (by decide)).trans (by decide),
   hicrepSCC_diagonal_cutoff.2.2.1 rsId fOK fOK 0 5 false none none rfl rfl rfl (by decide)
     (fun h => absurd h (by decide)) (by decide),
   (hicrepSCC_diagonal_cutoff.2.2.2 4 3 (by decide)).trans (by decide)⟩

theorem mem_pyFromKeys : ∀ (l : List String) (x : String), x ∈ pyFromKeys l ↔ x ∈ l := by
  intro l
  induction l with
  | nil => intro x; rfl
  | cons a as ih =>
      intro x
      simp only [pyFromKeys, List.mem_cons, List.mem_filter]
      constructor
      · rintro (rfl | ⟨hx, _⟩)
        · exact Or.inl rfl
        · exact Or.inr ((ih x).mp hx)
      · rintro (rfl | hx)
        · exact Or.inl rfl
        · by_cases hxa : x = a
          · exact Or.inl hxa
          · exact Or.inr ⟨(ih x).mpr hx, by simp [hxa]⟩

theorem pyFromKeys_length_le : ∀ (l : List String), (pyFromKeys l).length ≤ l.length := by
  intro l
  induction l with
  | nil => exact le_rfl
  | cons a as ih =>
      simp only [pyFromKeys, List.length_cons]
      have := List.length_filter_le (fun s => s != a) (pyFromKeys as)
      omega

theorem pyFromKeys_eq_of_nodup : ∀ (l : List String), l.Nodup → pyFromKeys l = l := by
  intro l
  induction l with
  | nil => intro _; rfl
  | cons a as ih =>
      intro h
      obtain ⟨ha, has⟩ := List.nodup_cons.mp h
      rw [pyFromKeys, ih has, List.filter_eq_self.mpr]
      intro b hb
      simp [ne_of_mem_of_not_mem hb ha]

theorem length_filter_lt_of_mem {α : Type} {l : List α} {p : α → Bool} {x : α}
    (hx : x ∈ l) (hpx : p x = false) : (l.filter p).length < l.length := by
  induction l with
  | nil => cases hx
  | cons b bs ih =>
      rcases List.mem_cons.mp hx with rfl | hxs
      · have := List.length_filter_le p bs
        simp only [List.filter_cons, hpx, Bool.false_eq_true, if_false, List.length_cons]
        omega
      · cases hpb : p b
        · have := ih hxs
          simp only [List.filter_cons, hpb, Bool.false_eq_true, if_false, List.length_cons]
          omega
        · have := ih hxs
          simp [List.filter_cons, hpb]
          omega

theorem pyFromKeys_length_lt : ∀ (l : List String), ¬ l.Nodup →
    (pyFromKeys l).length < l.length := by
  intro l
  induction l with
  | nil => intro h; exact absurd List.nodup_nil h
  | cons a as ih =>
      intro h
      rw [pyFromKeys]
      by_cases ha : a ∈ as
      · have hmem : a ∈ pyFromKeys as := (mem_pyFromKeys as a).mpr ha
        have hlt : ((pyFromKeys as).filter (fun s => s != a)).length < (pyFromKeys as).length :=
          length_filter_lt_of_mem hmem (by simp)
        have := pyFromKeys_length_le as
        simp only [List.length_cons]
        omega
      · have has : ¬ as.Nodup := fun hn => h (List.nodup_cons.mpr ⟨ha, hn⟩)
        have hlt := ih has
        have := List.length_filter_le (fun s => s != a) (pyFromKeys as)
        simp only [List.length_cons]
        omega

theorem exMapM_ok_length {α β ε : Type} (f : α → Except ε β) :
    ∀ (l : List α) (ys : List β), exMapM f l = .ok ys → ys.length = l.length := by
  intro l
  induction l with
  | nil =>
      intro ys h
      simp only [exMapM] at h
      cases h
      rfl
  | cons a as ih =>
      intro ys h
      simp only [exMapM] at h
      cases hfa : f a with
      | error e => rw [hfa] at h; exact absurd h (by simp)
      | ok b =>
          rw [hfa] at h
          cases hrec : exMapM f as with
          | error e => rw [hrec] at h; exact absurd h (by simp)
          | ok bs =>
              rw [hrec] at h
              cases h
              simp [ih bs hrec]

/-- Counterexample to claim C6 as stated: a first source whose native
chromosome order is `["ALL", "chr1"]`, no inclusion list and no excluded
names.  The claim predicts one score per native chromosome (two scores,
in native order); `hicrepSCC` silently drops the pseudo-chromosome and
returns a single score. -/
theorem hicrepSCC_native_order_counterexample :
    fWithALL.chroms.map Prod.fst = ["ALL", "chr1"] ∧
    selectedChroms fWithALL none none = ["chr1"] ∧
    hicrepSCC rsId fWithALL fWithALL 0 (-1) false none none = .ok [FVal.fin 0] :=
  ⟨by decide, by decide, by with_unfolding_all decide⟩

/-- Claim C6 (amended): the chromosomes `hicrepSCC` scores, and the order
of the returned per-chromosome scores, equal the caller-specified
inclusion order minus the excluded names when an inclusion list (without
duplicates or pseudo-chromosome names) is given, and otherwise the first
source's native order minus the pseudo-chromosomes `"ALL"`/`"All"` and
minus the excluded names; a successful run returns exactly one score per
selected chromosome. -/
theorem hicrepSCC_selected_chromosome_order :
    (∀ (f : HFile) (ex : Option (List String)) (l : List String),
      l.Nodup → "ALL" ∉ l → "All" ∉ l →
      selectedChroms f (some l) ex = l.filter (fun c => !((ex.getD []).contains c))) ∧
    (∀ (f : HFile) (ex : Option (List String)),
      selectedChroms f none ex =
        ((f.chroms.map Prod.fst).filter (fun s => s != "ALL" && s != "All")).filter
          (fun c => !((ex.getD []).contains c))) ∧
    (∀ (rs : CMat → ℚ → CMat) (f1 f2 : HFile) (hW dBP : ℤ) (bDS : Bool)
      (cn ex : Option (List String)) (scores : List FVal),
      hicrepSCC rs f1 f2 hW dBP bDS cn ex = .ok scores →
      scores.length = (selectedChroms f1 cn ex).length) := by
  refine ⟨?_, ?_, ?_⟩
  · intro f ex l hnd hALL hAll
    have h1 : List.filter (fun s => s != "ALL") l = l :=
      List.filter_eq_self.mpr (fun b hb => by simp [ne_of_mem_of_not_mem hb hALL])
    have h2 : List.filter (fun s => s != "All") l = l :=
      List.filter_eq_self.mpr (fun b hb => by simp [ne_of_mem_of_not_mem hb hAll])
    rw [selectedChroms, baseChrKeys, pyFromKeys_eq_of_nodup l hnd, popALLAll, h1, h2]
  · intro f ex
    rw [selectedChroms, baseChrKeys, popALLAll, List.filter_filter, List.filter_filter,
      List.filter_filter]
    apply List.filter_congr
    intro a _
    cases hc : (ex.getD []).contains a <;> cases h1 : a != "ALL" <;> cases h2 : a != "All" <;>
      simp [hc, h1, h2]
  · intro rs f1 f2 hW dBP bDS cn ex scores h
    simp only [hicrepSCC] at h
    split at h
    · exact absurd h (by simp)
    · split at h
      · exact absurd h (by simp)
      · split at h
        · exact absurd h (by simp)
        · split at h
          · exact absurd h (by simp)
          · split at h
            · exact absurd h (by simp)
            · split at h
              · exact absurd h (by simp)
              · split at h
                · exact absurd h (by simp)
                · rw [selectedChroms]
                  exact exMapM_ok_length _ _ scores h

/-- Witness for the amended claim C6 at concrete inputs: an inclusion
list with an exclusion applied, and a successful run with one score for
the one selected chromosome. -/
theorem hicrepSCC_selected_chromosome_order_witness :
    (["chr1"] : List String).Nodup ∧
    selectedChroms fOK (some ["chr1"]) (some ["M"]) = ["chr1"] ∧
    ([FVal.fin 0] : List FVal).length = (selectedChroms fOK none none).length := by
  refine ⟨by decide, ?_, ?_⟩
  · have h := hicrepSCC_selected_chromosome_order.1 fOK (some ["M"]) ["chr1"]
      (by decide) (by decide) (by decide)
    rw [h]
    decide
  · exact hicrepSCC_selected_chromosome_order.2.2 rsId fOK fOK 0 (-1) false none none
      [FVal.fin 0] (by with_unfolding_all decide)

theorem hicrepSCC_dup_error (rs : CMat → ℚ → CMat) (f1 f2 : HFile) (hW dBP : ℤ)
    (bDS : Bool) (l : List String) (ex : Option (List String))
    (h1 : f1.bin_size = f2.bin_size) (h2 : f1.bins.length = f2.bins.length)
    (h3 : f1.chroms.length = f2.chroms.length) (h4 : pyDictEq f1.chroms f2.chroms)
    (h5 : f1.bin_size = none → f1.bins = f2.bins)
    (h6 : 1 < dMaxOf f1 (resolvedBinSize f1) dBP)
    (hlen : (popALLAll (pyFromKeys l)).length ≠ l.length) :
    hicrepSCC rs f1 f2 hW dBP bDS (some l) ex = .error .duplicateChrNames := by
  have h5n : ¬ (f1.bin_size = none ∧ f1.bins ≠ f2.bins) := fun hc => hc.2 (h5 hc.1)
  have h6n : ¬ (dMaxOf f1 (resolvedBinSize f1) dBP ≤ 1) := by omega
  simp [hicrepSCC, h1, h2, h3, h4, h5n, h6n, baseChrKeys, hlen]
  intro hn
  exact h5 (by rw [h1, hn])

/-- Claim C7 (amended): duplicate names in the caller-supplied inclusion
list cause a fail-fast error; duplicate names in the caller-supplied
exclusion list cause only a warning (`main` warns and proceeds, it does
not error); and supplying both an inclusion list and a non-default
exclusion list simultaneously is a fail-fast error in `main`. -/
theorem list_validation_failfast :
    (∀ (rs : CMat → ℚ → CMat) (f1 f2 : HFile) (hW dBP : ℤ) (bDS : Bool)
      (l : List String) (ex : Option (List String)),
      ¬ l.Nodup →
      f1.bin_size = f2.bin_size → f1.bins.length = f2.bins.length →
      f1.chroms.length = f2.chroms.length → pyDictEq f1.chroms f2.chroms →
      (f1.bin_size = none → f1.bins = f2.bins) →
      1 < dMaxOf f1 (resolvedBinSize f1) dBP →
      hicrepSCC rs f1 f2 hW dBP bDS (some l) ex = .error .duplicateChrNames) ∧
    (∀ (rs : CMat → ℚ → CMat) (f1 f2 : HFile) (hW dBP : ℤ) (bDS : Bool)
      (excl : List String), ¬ excl.Nodup →
      (mainModel rs f1 f2 hW dBP bDS [] excl).map Prod.fst = .ok [dupExcludeChrWarning]) ∧
    (∀ (rs : CMat → ℚ → CMat) (f1 f2 : HFile) (hW dBP : ℤ) (bDS : Bool)
      (cn excl : List String), excl ≠ defaultExcludeChr → cn ≠ [] →
      mainModel rs f1 f2 hW dBP bDS cn excl = .error .bothChrNamesAndExcludeChr) := by
  refine ⟨?_, ?_, ?_⟩
  · intro rs f1 f2 hW dBP bDS l ex hnd h1 h2 h3 h4 h5 h6
    have hle : ((pyFromKeys l).filter (fun s => s != "ALL")).length ≤ (pyFromKeys l).length :=
      List.length_filter_le _ _
    have hle2 : (popALLAll (pyFromKeys l)).length ≤
        ((pyFromKeys l).filter (fun s => s != "ALL")).length :=
      List.length_filter_le _ _
    have hlt := pyFromKeys_length_lt l hnd
    exact hicrepSCC_dup_error rs f1 f2 hW dBP bDS l ex h1 h2 h3 h4 h5 h6 (by omega)
  · intro rs f1 f2 hW dBP bDS excl hnd
    have hlt := pyFromKeys_length_lt excl hnd
    have hne : (pyFromKeys excl).length ≠ excl.length := by omega
    simp [mainModel, hne, Except.map]
  · intro rs f1 f2 hW dBP bDS cn excl hex hcn
    have hpos : 0 < cn.length := List.length_pos.mpr hcn
    simp [mainModel, hex, hpos]

/-- Witness for the amended claim C7 at concrete inputs: a duplicated
inclusion list errors, a duplicated exclusion list only warns, and
combining the two kinds of list errors. -/
theorem list_validation_failfast_witness :
    hicrepSCC rsId fOK fOK 0 (-1) false (some ["chr1", "chr1"]) none =
      .error .duplicateChrNames ∧
    (mainModel rsId fOK fOK 0 (-1) false [] ["M", "M"]).map Prod.fst =
      .ok [dupExcludeChrWarning] ∧
    mainModel rsId fOK fOK 0 (-1) false ["chr1"] ["M"] =
      .error .bothChrNamesAndExcludeChr := by
  refine ⟨?_, ?_, ?_⟩
  · exact list_validation_failfast.1 rsId fOK fOK 0 (-1) false ["chr1", "chr1"] none
      (by decide) rfl rfl rfl (by decide) (fun h => absurd h (by decide)) (by decide)
  · exact list_validation_failfast.2.1 rsId fOK fOK 0 (-1) false ["M", "M"] (by decide)
  · exact list_validation_failfast.2.2 rsId fOK fOK 0 (-1) false ["chr1"] ["M"]
      (by decide) (by decide)

/-- Counterexample to claim C7 as stated: a duplicated exclusion list
(`["M", "M"]`) does not make `main` fail; it returns successfully,
emitting the duplicate warning, and the underlying run still succeeds. -/
theorem mainModel_duplicate_exclude_warns_counterexample :
    ¬ (["M", "M"] : List String).Nodup ∧
    mainModel rsId fOK fOK 0 (-1) false [] ["M", "M"] =
      .ok ([dupExcludeChrWarning], .ok [FVal.fin 0]) :=
  ⟨by decide, by with_unfolding_all decide⟩

/-- Claim C8: for every chromosome, `hicrepSCC`'s per-chromosome body
applies the stages in order: band extraction (trim to `[1, nDiags)`)
first, then exactly one of downsampling (only the matrix with the larger
trimmed total is resampled to the smaller total, neither when the totals
are equal) or normalization (each matrix divided by its own file-wide
total), then mean-filter smoothing of both matrices if and only if the
half-window is positive, then `sccByDiag`. -/
theorem perChromScore_stage_order (rs : CMat → ℚ → CMat) (n1 n2 : ℚ) (hW dM : ℤ)
    (bDS : Bool) (c : String) (mS1 mS2 : CMat)
    (h1 : mNonEmpty mS1 = true) (h2 : mS1.rows = mS1.cols)
    (h3 : mNonEmpty mS2 = true) (h4 : mS2.rows = mS2.cols)
    (h5 : mS1.rows = mS2.rows) (h6 : mS1.cols = mS2.cols) :
    perChromScore rs n1 n2 hW dM bDS c mS1 mS2 =
      .ok (sccByDiag
        (smoothStage hW (countStage rs n1 n2 bDS
          (bandStage (nDiagsOf dM mS1.rows) (mS1, mS2)))).1
        (smoothStage hW (countStage rs n1 n2 bDS
          (bandStage (nDiagsOf dM mS1.rows) (mS1, mS2)))).2
        (nDiagsOf dM mS1.rows)) := by
  rw [perChromScore, if_neg (by simp [h1]), if_neg (by simp [h2]), if_neg (by simp [h3]),
    if_neg (by simp [h4]), if_neg (by simp [h5, h6])]
  rfl

/-- Witness for claim C8 at a concrete chromosome matrix pair. -/
theorem perChromScore_stage_order_witness :
    mNonEmpty mBand1 = true ∧
    perChromScore rsId 4 4 0 4 false ("chr1") mBand1 mBand1 =
      .ok (sccByDiag
        (smoothStage 0 (countStage rsId 4 4 false
          (bandStage (nDiagsOf 4 mBand1.rows) (mBand1, mBand1)))).1
        (smoothStage 0 (countStage rsId 4 4 false
          (bandStage (nDiagsOf 4 mBand1.rows) (mBand1, mBand1)))).2
        (nDiagsOf 4 mBand1.rows)) :=
  ⟨by with_unfolding_all decide,
   perChromScore_stage_order rsId 4 4 0 4 false ("chr1") mBand1 mBand1
     (by with_unfolding_all decide) rfl (by with_unfolding_all decide) rfl rfl rfl⟩

theorem perChromScore_zero_window (rs : CMat → ℚ → CMat) (n1 n2 : ℚ) (dM : ℤ)
    (bDS : Bool) (c : String) (mS1 mS2 : CMat) :
    perChromScore rs n1 n2 0 dM bDS c mS1 mS2 =
      perChromScoreNoSmooth rs n1 n2 dM bDS c mS1 mS2 := rfl

/-- Claim C9: with smoothing half-window 0 the smoothing stage is the
identity: for every input the per-chromosome scores returned by
`hicrepSCC` with `h = 0` equal those of the pipeline with the smoothing
stage removed entirely. -/
theorem hicrepSCC_zero_window_no_smoothing (rs : CMat → ℚ → CMat) (f1 f2 : HFile)
    (dBP : ℤ) (bDS : Bool) (cn ex : Option (List String)) :
    hicrepSCC rs f1 f2 0 dBP bDS cn ex = hicrepSCCNoSmooth rs f1 f2 dBP bDS cn ex := by
  simp only [hicrepSCC, hicrepSCCNoSmooth, perChromScore_zero_window]

/-- Claim C10: `hicrepSCC` always removes the pseudo-chromosome names
`"ALL"` and `"All"` from the selected chromosome set before scoring, and
for every caller-supplied inclusion list containing `"ALL"` or `"All"`
(duplicated or not) the duplicate-name check fails and `hicrepSCC`
raises that error instead of scoring the remaining chromosomes. -/
theorem hicrepSCC_pops_pseudo_chromosomes :
    (∀ (f : HFile) (cn ex : Option (List String)),
      "ALL" ∉ selectedChroms f cn ex ∧ "All" ∉ selectedChroms f cn ex) ∧
    (∀ (rs : CMat → ℚ → CMat) (f1 f2 : HFile) (hW dBP : ℤ) (bDS : Bool)
      (l : List String) (ex : Option (List String)),
      ("ALL" ∈ l ∨ "All" ∈ l) →
      f1.bin_size = f2.bin_size → f1.bins.length = f2.bins.length →
      f1.chroms.length = f2.chroms.length → pyDictEq f1.chroms f2.chroms →
      (f1.bin_size = none → f1.bins = f2.bins) →
      1 < dMaxOf f1 (resolvedBinSize f1) dBP →
      hicrepSCC rs f1 f2 hW dBP bDS (some l) ex = .error .duplicateChrNames) := by
  constructor
  · intro f cn ex
    constructor
    · intro hmem
      rw [selectedChroms, popALLAll] at hmem
      have h1 := (List.mem_filter.mp hmem).1
      have h2 := (List.mem_filter.mp h1).1
      have h3 := (List.mem_filter.mp h2).2
      simp at h3
    · intro hmem
      rw [selectedChroms, popALLAll] at hmem
      have h1 := (List.mem_filter.mp hmem).1
      have h2 := (List.mem_filter.mp h1).2
      simp at h2
  · intro rs f1 f2 hW dBP bDS l ex hmem h1 h2 h3 h4 h5 h6
    have hlenle := pyFromKeys_length_le l
    have hlen : (popALLAll (pyFromKeys l)).length < l.length := by
      cases hmem with
      | inl hALL =>
          have hm : "ALL" ∈ pyFromKeys l := (mem_pyFromKeys l "ALL").mpr hALL
          have hlt : ((pyFromKeys l).filter (fun s => s != "ALL")).length <
              (pyFromKeys l).length := length_filter_lt_of_mem hm (by simp)
          have hle : (popALLAll (pyFromKeys l)).length ≤
              ((pyFromKeys l).filter (fun s => s != "ALL")).length :=
            List.length_filter_le _ _
          omega
      | inr hAll =>
          have hm : "All" ∈ pyFromKeys l := (mem_pyFromKeys l "All").mpr hAll
          have hm2 : "All" ∈ (pyFromKeys l).filter (fun s => s != "ALL") :=
            List.mem_filter.mpr ⟨hm, by decide⟩
          have hlt : (popALLAll (pyFromKeys l)).length <
              ((pyFromKeys l).filter (fun s => s != "ALL")).length := by
            rw [popALLAll]
            exact length_filter_lt_of_mem hm2 (by simp)
          have hle : ((pyFromKeys l).filter (fun s => s != "ALL")).length ≤
              (pyFromKeys l).length := List.length_filter_le _ _
          omega
    exact hicrepSCC_dup_error rs f1 f2 hW dBP bDS l ex h1 h2 h3 h4 h5 h6 (by omega)

/-- Witness for claim C10: the pseudo-chromosome is never selected, and a
duplicate-free inclusion list containing `"ALL"` errors. -/
theorem hicrepSCC_pops_pseudo_chromosomes_witness :
    "ALL" ∉ selectedChroms fOK none none ∧
    hicrepSCC rsId fOK fOK 0 (-1) false (some ["ALL", "chr1"]) none =
      .error .duplicateChrNames := by
  refine ⟨(hicrepSCC_pops_pseudo_chromosomes.1 fOK none none).1, ?_⟩
  exact hicrepSCC_pops_pseudo_chromosomes.2 rsId fOK fOK 0 (-1) false ["ALL", "chr1"] none
    (Or.inl (by decide)) rfl rfl rfl (by decide) (fun h => absurd h (by decide)) (by decide)
